import Mathlib

/-!
Verification of the static-analysis core: call-graph construction
(CallGraph.cpp), the inliner-config populator (InlinerConfig.cpp), the
asset writer (ApkManager.cpp), and the simple-fast dominator engine
(exercised by DominatorsTest.cpp).  Each C++ function is shallowly
embedded as an executable Lean definition; machine pointers become
structure values, the mutable graph becomes explicit state passing, and
the unbounded C++ recursion is driven by an explicit fuel argument
(the C++ recursion terminates because the method universe is finite;
fuel plays that role here, and every invariant below is proved for
every fuel value).
-/

namespace call_graph

/-- An IR instruction, reduced to what CallGraph.cpp inspects: whether
`is_invoke(insn->opcode())` holds, and the result of
`resolve_method(insn->get_method(), opcode_to_search(insn), cache, caller)`
for it.  The resolver (Resolver.h) is external to the analysed sources, so
its outcome per invoke site is part of the input: `resolved_callee` is the
id of the method it returns, `none` standing for `nullptr`. -/
structure Insn where
  is_invoke : Bool
  resolved_callee : Option Nat
deriving DecidableEq, Repr

/-- A DexMethod, reduced to the fields CallGraph.cpp reads: identity,
`is_virtual()`, `is_concrete()`, the `root(method)` mark, `is_clinit`,
and `get_code()` (`none` models a null code pointer). -/
structure DexMethod where
  mid : Nat
  is_virtual : Bool
  is_concrete : Bool
  rstate_root : Bool
  is_clinit : Bool
  code : Option (List Insn)
deriving DecidableEq, Repr

/-- The scope handed to the builders, together with the two results of the
external method-override-graph component (MethodOverrideGraph.h is not among
the analysed sources):
`non_true_virtual` models `mog::get_non_true_virtuals(scope)`, and
`overriding` models `mog::get_overriding_methods(graph, m)`, which per the
spec returns every method transitively overriding `m`. -/
structure Scope where
  methods : List DexMethod
  non_true_virtual : List Nat
  overriding : List (Nat × List Nat)
deriving Repr

/-- Look a method id up in the scope's method universe. -/
def find_method (s : Scope) (i : Nat) : Option DexMethod :=
  s.methods.find? (fun m => m.mid == i)

/-- The resolver outcome for one instruction, as a method of the scope:
`resolve_method` returning `nullptr` is `none`. -/
def resolve (s : Scope) (insn : Insn) : Option DexMethod :=
  insn.resolved_callee.bind (find_method s)

/-- SingleCalleeStrategy::is_definitely_virtual: virtual and not among the
non-true-virtuals. -/
def is_definitely_virtual (s : Scope) (m : DexMethod) : Bool :=
  m.is_virtual && !(s.non_true_virtual.contains m.mid)

/-- A CallSite as CallGraph.h stores it: the callee plus the invoke
locator (`code->iterator_to(mie)`), modelled as the instruction's index in
the caller's code stream. -/
structure CallSite where
  callee : DexMethod
  invoke : Nat
deriving DecidableEq, Repr

/-- SingleCalleeStrategy::get_callsites: for each invoke instruction,
resolve; skip a null or definitely-virtual resolution; record the callee
when it is concrete. -/
def single_callsites (s : Scope) (m : DexMethod) : List CallSite :=
  match m.code with
  | none => []
  | some insns =>
    insns.enum.filterMap (fun p =>
      if p.2.is_invoke then
        match resolve s p.2 with
        | none => none
        | some callee =>
          if is_definitely_virtual s callee then none
          else if callee.is_concrete then some ⟨callee, p.1⟩ else none
      else none)

/-- The methods transitively overriding `c`, per the override-graph data of
the scope, as method values. -/
def overriding_methods (s : Scope) (c : DexMethod) : List DexMethod :=
  ((s.overriding.lookup c.mid).getD []).filterMap (find_method s)

/-- CompleteCallGraphStrategy::get_callsites: for each invoke instruction,
resolve; skip a null resolution; record the callee when it is concrete, and
additionally record every method overriding it, all under the same invoke
locator. -/
def complete_callsites (s : Scope) (m : DexMethod) : List CallSite :=
  match m.code with
  | none => []
  | some insns =>
    insns.enum.flatMap (fun p =>
      if p.2.is_invoke then
        match resolve s p.2 with
        | none => []
        | some callee =>
          (if callee.is_concrete then [(⟨callee, p.1⟩ : CallSite)] else []) ++
            (overriding_methods s callee).map (fun o => ⟨o, p.1⟩)
      else [])

/-- SingleCalleeStrategy::get_roots: `walk::code` visits only methods that
have a code body (Walkers.h is external; this is its documented meaning),
and keeps those that are definitely virtual, marked as roots, or class
initializers. -/
def single_callee_roots (s : Scope) : List DexMethod :=
  s.methods.filter (fun m =>
    m.code.isSome && (is_definitely_virtual s m || m.rstate_root || m.is_clinit))

/-- CompleteCallGraphStrategy::get_roots: `walk::methods` visits every
method, code body or not, and keeps those marked as roots or class
initializers. -/
def complete_roots (s : Scope) : List DexMethod :=
  s.methods.filter (fun m => m.rstate_root || m.is_clinit)

/-- A graph node: the two ghost singletons or a method node. -/
inductive Node
  | ghost_entry
  | ghost_exit
  | meth (m : DexMethod)
deriving DecidableEq, Repr

/-- An Edge: caller node, callee node, and the invoke-site locator;
`none` models the default-constructed `IRList::iterator()` (the null
locator on ghost edges). -/
structure Edge where
  caller : Node
  callee : Node
  invoke_loc : Option Nat
deriving DecidableEq, Repr

/-- The state Graph::Graph threads through its recursive visit: the
`visited` set and the edges added so far (nodes are exactly the endpoints
of edges: every `make_node` call in the source accompanies an edge
insertion). -/
structure BuildState where
  visited : List DexMethod
  edges : List Edge
deriving Repr

/-- The per-callsite loop body of the visit lambda in Graph::Graph: add the
edge `caller → callee` with its locator, then recurse into the callee
(`vm` is the recursive visit at the remaining fuel). -/
def visit_sites (vm : DexMethod → BuildState → BuildState) (caller : DexMethod) :
    List CallSite → BuildState → BuildState
  | [], st => st
  | site :: rest, st =>
    let st1 : BuildState :=
      ⟨st.visited, st.edges ++ [⟨Node.meth caller, Node.meth site.callee, some site.invoke⟩]⟩
    visit_sites vm caller rest (vm site.callee st1)

/-- The visit lambda in Graph::Graph: skip an already-visited caller; else
mark it visited, add `caller → GHOST_EXIT` when it has no callsites, and
process each callsite. -/
def visit_method (cs : DexMethod → List CallSite) : Nat → DexMethod → BuildState → BuildState
  | 0 => fun _ st => st
  | Nat.succ fuel => fun caller st =>
    if caller ∈ st.visited then st
    else
      let sites := cs caller
      let st1 : BuildState :=
        ⟨caller :: st.visited,
          if sites.isEmpty then st.edges ++ [⟨Node.meth caller, Node.ghost_exit, none⟩]
          else st.edges⟩
      visit_sites (visit_method cs fuel) caller sites st1

/-- Graph::Graph, parameterized by the strategy's two operations (§4.3):
first an edge `GHOST_ENTRY → r` with null locator for every root, then the
recursive visit from every root. -/
def build_graph (fuel : Nat) (roots : List DexMethod) (cs : DexMethod → List CallSite) :
    BuildState :=
  let init : BuildState :=
    ⟨[], roots.map (fun r => ⟨Node.ghost_entry, Node.meth r, none⟩)⟩
  roots.foldl (fun st r => visit_method cs fuel r st) init

/-- call_graph::single_callee_graph.  The fuel bound exceeds the number of
methods in scope, which bounds the depth of the C++ recursion. -/
def single_callee_graph (s : Scope) : BuildState :=
  build_graph (s.methods.length + 1) (single_callee_roots s) (single_callsites s)

/-- call_graph::complete_call_graph. -/
def complete_call_graph (s : Scope) : BuildState :=
  build_graph (s.methods.length + 1) (complete_roots s) (complete_callsites s)

/-- Graph::add_edge: unconditionally create the edge and append it to the
caller's successors and the callee's predecessors; the source performs no
duplicate check. -/
def add_edge (edges : List Edge) (caller callee : Node) (loc : Option Nat) : List Edge :=
  edges ++ [⟨caller, callee, loc⟩]

/-- Reachability from GHOST_ENTRY by following successor edges. -/
inductive reaches (edges : List Edge) : Node → Prop
  | entry : reaches edges Node.ghost_entry
  | step {a b : Node} {l : Option Nat} :
      reaches edges a → (Edge.mk a b l) ∈ edges → reaches edges b

/-- The per-visited-method weight of the edge count: one ghost-exit edge
for a sink, else one edge per callsite. -/
def edge_weight (cs : DexMethod → List CallSite) (m : DexMethod) : Nat :=
  if (cs m).isEmpty then 1 else (cs m).length

/-- A visited method's obligations in the edge list: the ghost-exit edge
when it has no callsites, and one labeled edge per callsite. -/
def processed (cs : DexMethod → List CallSite) (m : DexMethod) (E : List Edge) : Prop :=
  (cs m = [] → (Edge.mk (Node.meth m) Node.ghost_exit none) ∈ E) ∧
  ∀ site ∈ cs m, (Edge.mk (Node.meth m) (Node.meth site.callee) (some site.invoke)) ∈ E

/-- Every method-to-method edge of the list has a callee satisfying `Q`. -/
def callee_prop (Q : DexMethod → Prop) (E : List Edge) : Prop :=
  ∀ e ∈ E, ∀ m c, e.caller = Node.meth m → e.callee = Node.meth c → Q c

/-- Every edge's source is reachable from GHOST_ENTRY in the list. -/
def sources_reachable (E : List Edge) : Prop :=
  ∀ e ∈ E, reaches E e.caller

end call_graph

namespace dominators

/-- Modelled from the spec: the dominator engine (`SimpleFastDominators`,
Dominators.h) is not among the analysed sources — only its unit test is —
so the "simple fast" algorithm of §4.4 is implemented from the spec's
words: reverse-postorder numbering from the entry; iterate computing each
node's idom as the intersection of its already-processed predecessors via
the two-finger walk; terminate at fixpoint.  A directed graph is its edge
list, as the test's `GraphInterface::Graph` builds it with `add_edge`. -/
structure DGraph where
  edges : List (Nat × Nat)
deriving DecidableEq, Repr

/-- Successors of a node: targets of its outgoing edges. -/
def succs (g : DGraph) (u : Nat) : List Nat :=
  g.edges.filterMap (fun e => if e.1 == u then some e.2 else none)

/-- Predecessors of a node: sources of its incoming edges. -/
def preds (g : DGraph) (u : Nat) : List Nat :=
  g.edges.filterMap (fun e => if e.2 == u then some e.1 else none)

/-- One step of the depth-first postorder walk, on an explicit stack of
(node, unexplored successors) frames; a node is appended to the order once
all its successors are done. -/
def post_order_loop (g : DGraph) :
    Nat → List (Nat × List Nat) → List Nat → List Nat → List Nat
  | 0, _, _, order => order
  | Nat.succ _, [], _, order => order
  | Nat.succ fuel, (u, []) :: stk, vis, order =>
    post_order_loop g fuel stk vis (order ++ [u])
  | Nat.succ fuel, (u, v :: vs) :: stk, vis, order =>
    if vis.contains v then post_order_loop g fuel ((u, vs) :: stk) vis order
    else post_order_loop g fuel ((v, succs g v) :: (u, vs) :: stk) (v :: vis) order

/-- Postorder of the nodes reachable from `entry`. -/
def post_order (g : DGraph) (entry : Nat) : List Nat :=
  post_order_loop g ((g.edges.length + 2) * (g.edges.length + 2))
    [(entry, succs g entry)] [entry] []

/-- The two-finger intersection walk: move the finger with the smaller
postorder number up through the current idom table until both meet. -/
def intersect (idom : List (Nat × Nat)) (pon : Nat → Nat) :
    Nat → Nat → Nat → Nat
  | 0, a, _ => a
  | Nat.succ fuel, a, b =>
    if a = b then a
    else if pon a < pon b then intersect idom pon fuel ((idom.lookup a).getD a) b
    else intersect idom pon fuel a ((idom.lookup b).getD b)

/-- Replace `k`'s binding in the idom table, or add it. -/
def upsert (l : List (Nat × Nat)) (k v : Nat) : List (Nat × Nat) :=
  if l.any (fun p => p.1 == k) then l.map (fun p => if p.1 == k then (k, v) else p)
  else l ++ [(k, v)]

/-- One pass over the non-entry nodes in reverse postorder: each node's new
idom is the intersection of its predecessors that already have one;
the Bool records whether any idom changed. -/
def dom_pass (g : DGraph) (pon : Nat → Nat) (ifuel : Nat) (nodes : List Nat)
    (idom0 : List (Nat × Nat)) : List (Nat × Nat) × Bool :=
  nodes.foldl (fun acc u =>
    let idom := acc.1
    let ps := (preds g u).filter (fun p => (idom.lookup p).isSome)
    match ps with
    | [] => acc
    | p :: rest =>
      let nid := rest.foldl (fun a q => intersect idom pon ifuel a q) p
      match idom.lookup u with
      | some old => if old = nid then acc else (upsert idom u nid, true)
      | none => (upsert idom u nid, true)) (idom0, false)

/-- Iterate passes to the fixpoint (no idom changes in a full pass). -/
def dom_iter (g : DGraph) (pon : Nat → Nat) (ifuel : Nat) (nodes : List Nat) :
    Nat → List (Nat × Nat) → List (Nat × Nat)
  | 0, idom => idom
  | Nat.succ fuel, idom =>
    let next := dom_pass g pon ifuel nodes idom
    if next.2 then dom_iter g pon ifuel nodes fuel next.1 else next.1

/-- The engine: idom of the entry is itself, other nodes begin undefined;
nodes are processed in reverse postorder. -/
def simple_fast_dominators (g : DGraph) (entry : Nat) : List (Nat × Nat) :=
  let po := post_order g entry
  let pon := fun u => po.indexOf u
  let nodes := po.reverse.filter (fun u => u != entry)
  dom_iter g pon (2 * (po.length + 1)) nodes (po.length + 1) [(entry, entry)]

/-- SimpleFastDominators::get_idom as the test calls it. -/
def get_idom (g : DGraph) (entry u : Nat) : Option Nat :=
  (simple_fast_dominators g entry).lookup u

/-- The doubleLoop test's second graph:
0→1, 1→2, 2→1, 1→3, 3→4, 4→3, 4→5, 2→5, entry 0. -/
def g_double_loop : DGraph :=
  ⟨[(0, 1), (1, 2), (2, 1), (1, 3), (3, 4), (4, 3), (4, 5), (2, 5)]⟩

end dominators

namespace inliner

/-- The per-method mutable renderer state InlinerConfig.cpp writes through
`method->rstate`: the do-not-inline and force-inline booleans. -/
structure RenderState where
  dont_inline : Bool
  force_inline : Bool
deriving DecidableEq, Repr

/-- A DexMethod as the populator sees it: identity plus its annotations
(annotation types as numbers). -/
structure IMethod where
  mname : Nat
  annos : List Nat
deriving DecidableEq, Repr

/-- A DexClass as the populator sees it: name, type, annotations, and the
direct and virtual method lists. -/
structure IClass where
  cname : String
  ctype : Nat
  annos : List Nat
  dmethods : List IMethod
  vmethods : List IMethod
deriving DecidableEq, Repr

/-- The renderer states of all methods, as one map from method identity. -/
def RState : Type := IMethod → RenderState

/-- InlinerConfig: the configured inputs (`m_` fields, never written by
populate) and the populated outputs. -/
structure InlinerConfig where
  m_populated : Bool
  m_no_inline_annos : List Nat
  m_force_inline_annos : List Nat
  m_black_list : List String
  m_caller_black_list : List String
  m_intradex_white_list : List String
  black_list : List Nat
  caller_black_list : List Nat
  intradex_white_list : List Nat

/-- has_any_annotation (AnnoUtils, external): whether any of the wanted
annotation types is carried. -/
def hasAnyAnno (carried wanted : List Nat) : Bool :=
  carried.any (fun a => wanted.contains a)

/-- Insertion into one of the populated sets (std::unordered_set emplace). -/
def insert_type (l : List Nat) (t : Nat) : List Nat :=
  if l.contains t then l else l ++ [t]

/-- Point update of one method's renderer state. -/
def upd (st : RState) (m : IMethod) (f : RenderState → RenderState) : RState :=
  fun x => if x = m then f (st x) else st x

/-- `method->rstate.set_dont_inline()` on every method of a list. -/
def set_dont_all (st : RState) (ms : List IMethod) : RState :=
  ms.foldl (fun st m => upd st m (fun r => { r with dont_inline := true })) st

/-- The `walk::classes` body of InlinerConfig::populate: prefix-match the
class name against each configured list, and set do-not-inline on every
direct and virtual method of a class carrying a no-inline annotation. -/
def class_step (p : InlinerConfig × RState) (cls : IClass) : InlinerConfig × RState :=
  let cfg0 := p.1
  let cfg1 :=
    if cfg0.m_black_list.any (fun ts => ts.isPrefixOf cls.cname) then
      { cfg0 with black_list := insert_type cfg0.black_list cls.ctype }
    else cfg0
  let cfg2 :=
    if cfg1.m_caller_black_list.any (fun ts => ts.isPrefixOf cls.cname) then
      { cfg1 with caller_black_list := insert_type cfg1.caller_black_list cls.ctype }
    else cfg1
  let cfg3 :=
    if cfg2.m_intradex_white_list.any (fun ts => ts.isPrefixOf cls.cname) then
      { cfg2 with intradex_white_list := insert_type cfg2.intradex_white_list cls.ctype }
    else cfg2
  let st1 :=
    if hasAnyAnno cls.annos cfg0.m_no_inline_annos then
      set_dont_all (set_dont_all p.2 cls.dmethods) cls.vmethods
    else p.2
  (cfg3, st1)

/-- The `walk::parallel::methods` body of InlinerConfig::populate: skip a
method already marked do-not-inline; else mark do-not-inline on a no-inline
annotation, and otherwise force-inline on a force-inline annotation. -/
def method_step (cfg : InlinerConfig) (st : RState) (m : IMethod) : RState :=
  if (st m).dont_inline then st
  else if hasAnyAnno m.annos cfg.m_no_inline_annos then
    upd st m (fun r => { r with dont_inline := true })
  else if hasAnyAnno m.annos cfg.m_force_inline_annos then
    upd st m (fun r => { r with force_inline := true })
  else st

/-- Every method the parallel walk visits: the direct and virtual methods
of every class of the scope (each task independent, so the parallel map is
modelled as a sequential fold). -/
def all_methods (scope : List IClass) : List IMethod :=
  scope.flatMap (fun c => c.dmethods ++ c.vmethods)

/-- InlinerConfig::populate: a no-op once `m_populated` is set; otherwise
the class walk, then the method walk, then `m_populated = true`. -/
def populate (scope : List IClass) (p : InlinerConfig × RState) :
    InlinerConfig × RState :=
  if p.1.m_populated then p
  else
    let p1 := scope.foldl class_step p
    let st2 := (all_methods scope).foldl (method_step p1.1) p1.2
    ({ p1.1 with m_populated := true }, st2)

end inliner

namespace apk

/-- The filesystem as ApkManager.cpp queries it: existence and
directory-ness per path, and whether `fopen(path, "w")` succeeds there. -/
structure FileSys where
  exists_at : String → Bool
  is_dir : String → Bool
  fopen_ok : String → Bool

/-- How a call to the asset writer ends: `exited c` models
`exit(EXIT_FAILURE)` (process aborted, status `c ≠ 0`); `thrown msg`
models `throw new std::runtime_error(msg)` (an exception propagating to
the caller); `ok path` models the returned open file. -/
inductive AssetResult
  | exited (code : Nat)
  | thrown (msg : String)
  | ok (path : String)
deriving DecidableEq, Repr

/-- create_directories_if_not_exists: after it, the path exists and is a
directory. -/
def create_directories_if_not_exists (fs : FileSys) (dir : String) : FileSys :=
  if fs.exists_at dir then fs
  else
    { exists_at := fun p => p == dir || fs.exists_at p,
      is_dir := fun p => p == dir || fs.is_dir p,
      fopen_ok := fs.fopen_ok }

/-- check_directory: `exit(EXIT_FAILURE)` unless the path is a directory
(`false` = the process is gone). -/
def check_directory (fs : FileSys) (dir : String) : Bool :=
  fs.is_dir dir

/-- ApkManager::new_asset_file: check the apk directory, build
`m_apk_dir + dir_path`, create it (new_dir) or check it, then open
`... + filename` for writing; a failed open throws. -/
def new_asset_file (fs : FileSys) (m_apk_dir filename dir_path : String)
    (new_dir : Bool) : AssetResult :=
  if !(check_directory fs m_apk_dir) then AssetResult.exited 1
  else
    let assets_dir := m_apk_dir ++ dir_path
    if new_dir then
      let fs2 := create_directories_if_not_exists fs assets_dir
      let full := assets_dir ++ filename
      if fs2.fopen_ok full then AssetResult.ok full
      else AssetResult.thrown "Error creating new asset file"
    else
      if !(check_directory fs assets_dir) then AssetResult.exited 1
      else
        let full := assets_dir ++ filename
        if fs.fopen_ok full then AssetResult.ok full
        else AssetResult.thrown "Error creating new asset file"

end apk

namespace call_graph

/-- A rooted caller whose single invoke resolves to method id 1. -/
def m_caller : DexMethod :=
  ⟨0, false, true, true, false, some [⟨true, some 1⟩]⟩

/-- An abstract (non-concrete) virtual method: a resolution target that
fails the `is_concrete` test. -/
def m_abstract : DexMethod := ⟨1, true, false, false, false, none⟩

/-- The concrete method overriding `m_abstract`. -/
def m_over : DexMethod := ⟨2, true, true, false, false, some []⟩

/-- Scope in which the caller's invoke resolves to the abstract method,
which one concrete method overrides. -/
def s_abstract : Scope := ⟨[m_caller, m_abstract, m_over], [], [(1, [2])]⟩

/-- A concrete virtual resolution target. -/
def m_base : DexMethod := ⟨1, true, true, false, false, some []⟩

/-- Scope in which the caller's invoke resolves to the concrete
`m_base`, which `m_over` overrides. -/
def s_concrete : Scope := ⟨[m_caller, m_base, m_over], [], [(1, [2])]⟩

/-- A true-virtual method with a code body and no callsites. -/
def m_truevirt : DexMethod := ⟨0, true, true, false, false, some []⟩

/-- Scope holding only the true-virtual method: the single-callee strategy
roots it. -/
def s_truevirt : Scope := ⟨[m_truevirt], [], []⟩

/-- A non-virtual concrete leaf method. -/
def m_leaf : DexMethod := ⟨1, false, true, false, false, some []⟩

/-- Scope with one rooted caller invoking one monomorphic leaf. -/
def s_plain : Scope := ⟨[m_caller, m_leaf], [], []⟩

/-- A rooted method without a code body. -/
def m_nocode : DexMethod := ⟨5, false, false, true, false, none⟩

/-- Scope holding only the codeless rooted method. -/
def s_nocode : Scope := ⟨[m_nocode], [], []⟩

/-- A strategy (for the raw builder) that reports the same
(callee, locator) pair twice for the caller `m_caller`. -/
def dup_cs (m : DexMethod) : List CallSite :=
  if m.mid == 0 then [⟨m_leaf, 0⟩, ⟨m_leaf, 0⟩] else []

end call_graph

namespace inliner

/-- A method carrying the force-inline annotation (type 2). -/
def m_force : IMethod := ⟨0, [2]⟩

/-- A class carrying the no-inline annotation (type 1), owning `m_force`
as a direct method. -/
def cls_noinline : IClass := ⟨"LNo;", 10, [1], [m_force], []⟩

/-- A configuration whose no-inline annotation list is [1] and
force-inline annotation list is [2], not yet populated. -/
def cfg0 : InlinerConfig := ⟨false, [1], [2], [], [], [], [], [], []⟩

/-- All renderer states clear. -/
def st0 : RState := fun _ => ⟨false, false⟩

end inliner

namespace apk

/-- A filesystem on which every path is an existing directory but every
`fopen` fails. -/
def fs_nofopen : FileSys :=
  ⟨fun _ => true, fun _ => true, fun _ => false⟩

end apk

namespace call_graph

theorem edges_append_mem {E : List Edge} {e x : Edge} (h : e ∈ E) : e ∈ E ++ [x] :=
  List.mem_append.mpr (Or.inl h)

theorem visit_sites_subset (vm : DexMethod → BuildState → BuildState)
    (hvm : ∀ c st, st.edges ⊆ (vm c st).edges) (caller : DexMethod) :
    ∀ (sites : List CallSite) (st : BuildState),
      st.edges ⊆ (visit_sites vm caller sites st).edges := by
  intro sites
  induction sites with
  | nil => intro st; simp [visit_sites]
  | cons s0 rest ih =>
    intro st e he
    simp only [visit_sites]
    exact ih _ (hvm s0.callee _ (edges_append_mem he))

theorem visit_method_subset (cs : DexMethod → List CallSite) :
    ∀ (fuel : Nat) (caller : DexMethod) (st : BuildState),
      st.edges ⊆ (visit_method cs fuel caller st).edges := by
  intro fuel
  induction fuel with
  | zero => intro caller st; simp [visit_method]
  | succ f ih =>
    intro caller st e he
    simp only [visit_method]
    by_cases h : caller ∈ st.visited
    · simp only [if_pos h]; exact he
    · simp only [if_neg h]
      apply visit_sites_subset (visit_method cs f) ih caller (cs caller)
      by_cases hs : (cs caller).isEmpty <;> simp [hs, he]

theorem visit_sites_edge_mem (vm : DexMethod → BuildState → BuildState)
    (hvm : ∀ c st, st.edges ⊆ (vm c st).edges) (caller : DexMethod) :
    ∀ (sites : List CallSite) (st : BuildState) (site : CallSite), site ∈ sites →
      (Edge.mk (Node.meth caller) (Node.meth site.callee) (some site.invoke)) ∈
        (visit_sites vm caller sites st).edges := by
  intro sites
  induction sites with
  | nil => intro st site h; cases h
  | cons s0 rest ih =>
    intro st site h
    simp only [visit_sites]
    rcases List.mem_cons.mp h with h0 | h1
    · subst h0
      apply visit_sites_subset vm hvm caller rest _
      apply hvm
      simp
    · exact ih _ _ h1

theorem processed_mono {cs : DexMethod → List CallSite} {m : DexMethod}
    {E E2 : List Edge} (h : processed cs m E) (hsub : E ⊆ E2) : processed cs m E2 :=
  ⟨fun he => hsub (h.1 he), fun site hs => hsub (h.2 site hs)⟩

end call_graph

namespace call_graph

theorem visit_method_processed (cs : DexMethod → List CallSite) :
    ∀ (fuel : Nat) (caller : DexMethod) (st : BuildState) (m : DexMethod),
      m ∈ (visit_method cs fuel caller st).visited →
      m ∈ st.visited ∨ processed cs m (visit_method cs fuel caller st).edges := by
  intro fuel
  induction fuel with
  | zero => intro caller st m hm; exact Or.inl hm
  | succ f ih =>
    intro caller st m hm
    by_cases h : caller ∈ st.visited
    · simp only [visit_method, if_pos h] at hm
      exact Or.inl hm
    · have inner : ∀ (sites : List CallSite) (st2 : BuildState),
          m ∈ (visit_sites (visit_method cs f) caller sites st2).visited →
          m ∈ st2.visited ∨
            processed cs m (visit_sites (visit_method cs f) caller sites st2).edges := by
        intro sites
        induction sites with
        | nil => intro st2 hm2; exact Or.inl hm2
        | cons s0 rest ihs =>
          intro st2 hm2
          simp only [visit_sites] at hm2 ⊢
          rcases ihs _ hm2 with h1 | h1
          · rcases ih s0.callee _ m h1 with h2 | h2
            · exact Or.inl h2
            · exact Or.inr (processed_mono h2
                (visit_sites_subset _ (visit_method_subset cs f) caller rest _))
          · exact Or.inr h1
      simp only [visit_method, if_neg h] at hm ⊢
      rcases inner (cs caller) _ hm with h1 | h1
      · rcases List.mem_cons.mp h1 with h2 | h2
        · subst h2
          right
          constructor
          · intro hempty
            apply visit_sites_subset _ (visit_method_subset cs f) m (cs m)
            simp [hempty]
          · intro site hsite
            exact visit_sites_edge_mem _ (visit_method_subset cs f) m (cs m) _ site hsite
        · exact Or.inl h2
      · exact Or.inr h1

theorem build_graph_subset (fuel : Nat) (cs : DexMethod → List CallSite) :
    ∀ (rs : List DexMethod) (st : BuildState),
      st.edges ⊆ (rs.foldl (fun st r => visit_method cs fuel r st) st).edges := by
  intro rs
  induction rs with
  | nil => intro st; exact fun e he => he
  | cons r rest ih =>
    intro st e he
    exact ih _ (visit_method_subset cs fuel r st he)

theorem build_graph_processed (fuel : Nat) (roots : List DexMethod)
    (cs : DexMethod → List CallSite) (m : DexMethod)
    (hm : m ∈ (build_graph fuel roots cs).visited) :
    processed cs m (build_graph fuel roots cs).edges := by
  have main : ∀ (rs : List DexMethod) (st : BuildState),
      m ∈ (rs.foldl (fun st r => visit_method cs fuel r st) st).visited →
      m ∈ st.visited ∨
        processed cs m (rs.foldl (fun st r => visit_method cs fuel r st) st).edges := by
    intro rs
    induction rs with
    | nil => intro st h; exact Or.inl h
    | cons r rest ih =>
      intro st h
      simp only [List.foldl_cons] at h ⊢
      rcases ih _ h with h1 | h1
      · rcases visit_method_processed cs fuel r st m h1 with h2 | h2
        · exact Or.inl h2
        · exact Or.inr (processed_mono h2 (build_graph_subset fuel cs rest _))
      · exact Or.inr h1
  rcases main roots _ hm with h1 | h1
  · cases h1
  · exact h1

end call_graph

namespace call_graph

theorem mem_complete_callsites (s : Scope) (m : DexMethod) (insns : List Insn)
    (idx : Nat) (insn : Insn) (M : DexMethod)
    (hcode : m.code = some insns) (hget : insns[idx]? = some insn)
    (hinv : insn.is_invoke = true) (hres : resolve s insn = some M) :
    (M.is_concrete = true → (⟨M, idx⟩ : CallSite) ∈ complete_callsites s m) ∧
    (∀ o ∈ overriding_methods s M, (⟨o, idx⟩ : CallSite) ∈ complete_callsites s m) := by
  have henum : (idx, insn) ∈ insns.enum := List.mk_mem_enum_iff_getElem?.mpr hget
  constructor
  · intro hc
    simp only [complete_callsites, hcode]
    apply List.mem_flatMap.mpr
    refine ⟨(idx, insn), henum, ?_⟩
    simp [hinv, hres, hc]
  · intro o ho
    simp only [complete_callsites, hcode]
    apply List.mem_flatMap.mpr
    refine ⟨(idx, insn), henum, ?_⟩
    simp only [hinv, hres, if_true]
    apply List.mem_append.mpr
    right
    exact List.mem_map.mpr ⟨o, ho, rfl⟩

end call_graph

namespace call_graph

/-- C1 (amended): in a graph built by the complete strategy, for every
invoke site in a reachable (visited) method whose reference resolves to
method M, the graph contains an edge from the caller to M provided M is
concrete, and an edge from the caller to every method in overrides*(M),
each labeled with that invoke site's locator.  (The unconditional edge to
M claimed originally fails when M is not concrete, see the
counterexample.) -/
theorem complete_graph_invoke_edges (s : Scope) (m : DexMethod)
    (hm : m ∈ (complete_call_graph s).visited) (insns : List Insn) (idx : Nat)
    (insn : Insn) (M : DexMethod) (hcode : m.code = some insns)
    (hget : insns[idx]? = some insn) (hinv : insn.is_invoke = true)
    (hres : resolve s insn = some M) :
    (M.is_concrete = true →
      (Edge.mk (Node.meth m) (Node.meth M) (some idx)) ∈ (complete_call_graph s).edges) ∧
    ∀ o ∈ overriding_methods s M,
      (Edge.mk (Node.meth m) (Node.meth o) (some idx)) ∈ (complete_call_graph s).edges := by
  have hm2 : m ∈ (build_graph (s.methods.length + 1) (complete_roots s)
      (complete_callsites s)).visited := hm
  have hp := build_graph_processed (s.methods.length + 1) (complete_roots s)
    (complete_callsites s) m hm2
  have hsites := mem_complete_callsites s m insns idx insn M hcode hget hinv hres
  exact ⟨fun hc => hp.2 ⟨M, idx⟩ (hsites.1 hc),
    fun o ho => hp.2 ⟨o, idx⟩ (hsites.2 o ho)⟩

/-- C1, counterexample to the original wording: in `s_abstract` the rooted
caller's single invoke site resolves to the abstract method `m_abstract`,
yet the complete graph has no edge from the caller to it (only to its
concrete override). -/
theorem complete_graph_missing_abstract_edge :
    m_caller ∈ (complete_call_graph s_abstract).visited ∧
    m_caller.code = some [Insn.mk true (some 1)] ∧
    (Insn.mk true (some 1)).is_invoke = true ∧
    resolve s_abstract (Insn.mk true (some 1)) = some m_abstract ∧
    (Edge.mk (Node.meth m_caller) (Node.meth m_abstract) (some 0)) ∉
      (complete_call_graph s_abstract).edges := by decide

/-- C1, witness: the amended theorem applied to the concrete scope
`s_concrete`, where the invoke resolves to the concrete `m_base`: both the
edge to `m_base` and the edge to its override `m_over` are present. -/
theorem complete_graph_invoke_edges_witness :
    (Edge.mk (Node.meth m_caller) (Node.meth m_base) (some 0)) ∈
      (complete_call_graph s_concrete).edges ∧
    (Edge.mk (Node.meth m_caller) (Node.meth m_over) (some 0)) ∈
      (complete_call_graph s_concrete).edges :=
  have h := complete_graph_invoke_edges s_concrete m_caller (by decide)
    [Insn.mk true (some 1)] 0 (Insn.mk true (some 1)) m_base rfl rfl rfl (by decide)
  ⟨h.1 rfl, h.2 m_over (by decide)⟩

/-- C6: for every strategy (root list and callsite map) and any fuel,
every visited method whose callsite list is empty receives an edge from
its node to GHOST_EXIT carrying the null locator. -/
theorem sink_has_exit_edge (fuel : Nat) (roots : List DexMethod)
    (cs : DexMethod → List CallSite) (m : DexMethod)
    (hm : m ∈ (build_graph fuel roots cs).visited) (hempty : cs m = []) :
    (Edge.mk (Node.meth m) Node.ghost_exit none) ∈ (build_graph fuel roots cs).edges :=
  (build_graph_processed fuel roots cs m hm).1 hempty

/-- C6, witness: in the single-callee graph of `s_plain` the leaf method is
visited with no callsites, and indeed has the ghost-exit edge. -/
theorem sink_has_exit_edge_witness :
    (Edge.mk (Node.meth m_leaf) Node.ghost_exit none) ∈
      (build_graph 3 [m_caller] (single_callsites s_plain)).edges :=
  sink_has_exit_edge 3 [m_caller] (single_callsites s_plain) m_leaf
    (by decide) (by decide)

end call_graph

namespace call_graph

theorem mem_single_callsites (s : Scope) (m : DexMethod) (site : CallSite)
    (h : site ∈ single_callsites s m) :
    is_definitely_virtual s site.callee = false := by
  unfold single_callsites at h
  split at h
  · cases h
  · rcases List.mem_filterMap.mp h with ⟨p, hp, hf⟩
    split at hf
    · split at hf
      · cases hf
      · split at hf
        · cases hf
        · split at hf
          · cases hf
            rename_i hd hc
            simpa using hd
          · cases hf
    · cases hf

theorem callee_prop_append_exit {Q : DexMethod → Prop} {E : List Edge} {a : Node}
    {l : Option Nat} (h : callee_prop Q E) :
    callee_prop Q (E ++ [Edge.mk a Node.ghost_exit l]) := by
  intro e he m c hcal hcee
  rcases List.mem_append.mp he with h1 | h1
  · exact h e h1 m c hcal hcee
  · have h2 := List.mem_singleton.mp h1
    subst h2
    cases hcee

theorem callee_prop_append_meth {Q : DexMethod → Prop} {E : List Edge} {a : Node}
    {c0 : DexMethod} {l : Option Nat} (h : callee_prop Q E) (hq : Q c0) :
    callee_prop Q (E ++ [Edge.mk a (Node.meth c0) l]) := by
  intro e he m c hcal hcee
  rcases List.mem_append.mp he with h1 | h1
  · exact h e h1 m c hcal hcee
  · have h2 := List.mem_singleton.mp h1
    subst h2
    cases hcee
    exact hq

theorem visit_sites_callee_prop (Q : DexMethod → Prop)
    (vm : DexMethod → BuildState → BuildState)
    (hvm : ∀ c st, callee_prop Q st.edges → callee_prop Q ((vm c st)).edges)
    (caller : DexMethod) :
    ∀ (sites : List CallSite) (st : BuildState), (∀ site ∈ sites, Q site.callee) →
      callee_prop Q st.edges → callee_prop Q (visit_sites vm caller sites st).edges := by
  intro sites
  induction sites with
  | nil => intro st _ hQ; exact hQ
  | cons s0 rest ih =>
    intro st hsites hQ
    simp only [visit_sites]
    apply ih
    · intro site hs
      exact hsites site (List.mem_cons_of_mem _ hs)
    · apply hvm
      exact callee_prop_append_meth hQ (hsites s0 (List.mem_cons_self s0 rest))

theorem visit_method_callee_prop (cs : DexMethod → List CallSite)
    (Q : DexMethod → Prop) (hcs : ∀ m site, site ∈ cs m → Q site.callee) :
    ∀ (fuel : Nat) (caller : DexMethod) (st : BuildState),
      callee_prop Q st.edges → callee_prop Q (visit_method cs fuel caller st).edges := by
  intro fuel
  induction fuel with
  | zero => intro caller st h; exact h
  | succ f ih =>
    intro caller st hQ
    by_cases h : caller ∈ st.visited
    · simp only [visit_method, if_pos h]; exact hQ
    · simp only [visit_method, if_neg h]
      apply visit_sites_callee_prop Q _ (fun c st hq => ih c st hq) caller _ _
        (fun site hs => hcs caller site hs)
      by_cases hs : (cs caller).isEmpty = true
      · simp only [hs, if_true]
        exact callee_prop_append_exit hQ
      · simp only [hs, if_false]
        exact hQ

theorem build_graph_callee_prop (fuel : Nat) (roots : List DexMethod)
    (cs : DexMethod → List CallSite) (Q : DexMethod → Prop)
    (hcs : ∀ m site, site ∈ cs m → Q site.callee) :
    callee_prop Q (build_graph fuel roots cs).edges := by
  have hinit : callee_prop Q
      (roots.map fun r => Edge.mk Node.ghost_entry (Node.meth r) none) := by
    intro e he m c hcal hcee
    rcases List.mem_map.mp he with ⟨r, hr, h2⟩
    subst h2
    cases hcal
  have main : ∀ (rs : List DexMethod) (st : BuildState), callee_prop Q st.edges →
      callee_prop Q ((rs.foldl (fun st r => visit_method cs fuel r st) st)).edges := by
    intro rs
    induction rs with
    | nil => intro st h; exact h
    | cons r rest ih =>
      intro st h
      exact ih _ (visit_method_callee_prop cs Q hcs fuel r st h)
  exact main roots _ hinit

/-- C3 (amended): in a graph built by the single-callee strategy, no edge
arising from an invoke site — i.e. no edge whose caller is a method
node — has a true-virtual callee.  (The original wording over all edges
fails: ghost-entry edges target the true-virtual roots, see the
counterexample.) -/
theorem single_graph_no_true_virtual_callee (s : Scope) (e : Edge)
    (he : e ∈ (single_callee_graph s).edges) (m c : DexMethod)
    (hcal : e.caller = Node.meth m) (hcee : e.callee = Node.meth c) :
    is_definitely_virtual s c = false := by
  have h := build_graph_callee_prop (s.methods.length + 1) (single_callee_roots s)
    (single_callsites s) (fun x => is_definitely_virtual s x = false)
    (fun m site hs => mem_single_callsites s m site hs)
  exact h e he m c hcal hcee

/-- C3, counterexample to the original wording: the single-callee graph of
`s_truevirt` contains the ghost-entry edge to the true-virtual root, an
edge whose callee is a true-virtual method. -/
theorem single_graph_entry_edge_to_true_virtual :
    (Edge.mk Node.ghost_entry (Node.meth m_truevirt) none) ∈
      (single_callee_graph s_truevirt).edges ∧
    is_definitely_virtual s_truevirt m_truevirt = true := by decide

/-- C3, witness: the amended theorem applied to the invoke edge of
`s_plain`: its callee is not true-virtual. -/
theorem single_graph_no_true_virtual_callee_witness :
    is_definitely_virtual s_plain m_leaf = false :=
  single_graph_no_true_virtual_callee s_plain
    (Edge.mk (Node.meth m_caller) (Node.meth m_leaf) (some 0)) (by decide)
    m_caller m_leaf rfl rfl

end call_graph

namespace call_graph

theorem reaches_mono {E E2 : List Edge} {n : Node} (hsub : E ⊆ E2)
    (h : reaches E n) : reaches E2 n := by
  induction h with
  | entry => exact reaches.entry
  | step h1 h2 ih => exact reaches.step ih (hsub h2)

theorem sources_reachable_append {E : List Edge} {a b : Node} {l : Option Nat}
    (hE : sources_reachable E) (ha : reaches E a) :
    sources_reachable (E ++ [Edge.mk a b l]) := by
  intro e he
  have hsub : E ⊆ E ++ [Edge.mk a b l] := List.subset_append_left _ _
  rcases List.mem_append.mp he with h1 | h1
  · exact reaches_mono hsub (hE e h1)
  · have h2 := List.mem_singleton.mp h1
    subst h2
    exact reaches_mono hsub ha

theorem visit_sites_sources (vm : DexMethod → BuildState → BuildState)
    (hvm_sub : ∀ c st, st.edges ⊆ (vm c st).edges)
    (hvm : ∀ c st, sources_reachable st.edges → reaches st.edges (Node.meth c) →
      sources_reachable (vm c st).edges)
    (caller : DexMethod) :
    ∀ (sites : List CallSite) (st : BuildState), sources_reachable st.edges →
      reaches st.edges (Node.meth caller) →
      sources_reachable (visit_sites vm caller sites st).edges := by
  intro sites
  induction sites with
  | nil => intro st h _; exact h
  | cons s0 rest ih =>
    intro st hE hr
    simp only [visit_sites]
    have h1 : sources_reachable
        (st.edges ++ [Edge.mk (Node.meth caller) (Node.meth s0.callee) (some s0.invoke)]) :=
      sources_reachable_append hE hr
    have hr1 : reaches
        (st.edges ++ [Edge.mk (Node.meth caller) (Node.meth s0.callee) (some s0.invoke)])
        (Node.meth caller) :=
      reaches_mono (List.subset_append_left _ _) hr
    have hrc : reaches
        (st.edges ++ [Edge.mk (Node.meth caller) (Node.meth s0.callee) (some s0.invoke)])
        (Node.meth s0.callee) :=
      reaches.step hr1 (List.mem_append.mpr (Or.inr (List.mem_singleton.mpr rfl)))
    have h2 := hvm s0.callee
      ⟨st.visited, st.edges ++ [Edge.mk (Node.meth caller) (Node.meth s0.callee) (some s0.invoke)]⟩
      h1 hrc
    have hr2 := reaches_mono (hvm_sub s0.callee
      ⟨st.visited, st.edges ++ [Edge.mk (Node.meth caller) (Node.meth s0.callee) (some s0.invoke)]⟩)
      hr1
    exact ih _ h2 hr2

theorem visit_method_sources (cs : DexMethod → List CallSite) :
    ∀ (fuel : Nat) (caller : DexMethod) (st : BuildState),
      sources_reachable st.edges → reaches st.edges (Node.meth caller) →
      sources_reachable (visit_method cs fuel caller st).edges := by
  intro fuel
  induction fuel with
  | zero => intro caller st h _; exact h
  | succ f ih =>
    intro caller st hE hr
    by_cases h : caller ∈ st.visited
    · simp only [visit_method, if_pos h]; exact hE
    · simp only [visit_method, if_neg h]
      apply visit_sites_sources (visit_method cs f) (visit_method_subset cs f)
        (fun c st h1 h2 => ih c st h1 h2) caller (cs caller)
      · by_cases hs : (cs caller).isEmpty = true
        · simp only [hs, if_true]
          exact sources_reachable_append hE hr
        · simp only [hs, if_false]
          exact hE
      · by_cases hs : (cs caller).isEmpty = true
        · simp only [hs, if_true]
          exact reaches_mono (List.subset_append_left _ _) hr
        · simp only [hs, if_false]
          exact hr

theorem build_graph_sources (fuel : Nat) (roots : List DexMethod)
    (cs : DexMethod → List CallSite) :
    sources_reachable (build_graph fuel roots cs).edges := by
  have hinit : sources_reachable
      (roots.map fun r => Edge.mk Node.ghost_entry (Node.meth r) none) := by
    intro e he
    rcases List.mem_map.mp he with ⟨r, hr, h2⟩
    subst h2
    exact reaches.entry
  have hroots : ∀ r ∈ roots, reaches
      (roots.map fun r => Edge.mk Node.ghost_entry (Node.meth r) none) (Node.meth r) := by
    intro r hr
    exact reaches.step reaches.entry (List.mem_map.mpr ⟨r, hr, rfl⟩)
  have main : ∀ (rs : List DexMethod) (st : BuildState), sources_reachable st.edges →
      (∀ r ∈ rs, reaches st.edges (Node.meth r)) →
      sources_reachable ((rs.foldl (fun st r => visit_method cs fuel r st) st)).edges := by
    intro rs
    induction rs with
    | nil => intro st h _; exact h
    | cons r rest ih =>
      intro st hE hr
      simp only [List.foldl_cons]
      apply ih
      · exact visit_method_sources cs fuel r st hE (hr r (List.mem_cons_self r rest))
      · intro r2 hr2
        exact reaches_mono (visit_method_subset cs fuel r st)
          (hr r2 (List.mem_cons_of_mem _ hr2))
  exact main roots _ hinit hroots

/-- C4: for every build strategy (root list and callsite map), any fuel,
every non-ghost node present in the built graph (an endpoint of some edge)
is reachable from GHOST_ENTRY by following successor edges. -/
theorem build_graph_non_ghost_reachable (fuel : Nat) (roots : List DexMethod)
    (cs : DexMethod → List CallSite) (m : DexMethod)
    (h : ∃ e ∈ (build_graph fuel roots cs).edges,
      e.caller = Node.meth m ∨ e.callee = Node.meth m) :
    reaches (build_graph fuel roots cs).edges (Node.meth m) := by
  obtain ⟨e, he, hor⟩ := h
  have hs := build_graph_sources fuel roots cs
  obtain ⟨a, b, l⟩ := e
  rcases hor with h1 | h1
  · have h2 := hs _ he
    simp only at h1
    rwa [h1] at h2
  · have h2 : reaches (build_graph fuel roots cs).edges b :=
      reaches.step (hs _ he) he
    simp only at h1
    rwa [h1] at h2

/-- C4, witness: the leaf callee of the single-callee strategy's graph on
`s_plain` is an edge endpoint and is reachable from GHOST_ENTRY. -/
theorem build_graph_non_ghost_reachable_witness :
    reaches (build_graph 3 [m_caller] (single_callsites s_plain)).edges
      (Node.meth m_leaf) :=
  build_graph_non_ghost_reachable 3 [m_caller] (single_callsites s_plain) m_leaf
    (by decide)

end call_graph

namespace call_graph

theorem visit_sites_count (vm : DexMethod → BuildState → BuildState)
    (w : DexMethod → Nat)
    (hvm : ∀ c st, (vm c st).edges.length + (st.visited.map w).sum =
      st.edges.length + ((vm c st).visited.map w).sum)
    (caller : DexMethod) :
    ∀ (sites : List CallSite) (st : BuildState),
      (visit_sites vm caller sites st).edges.length + (st.visited.map w).sum =
      st.edges.length + sites.length +
        ((visit_sites vm caller sites st).visited.map w).sum := by
  intro sites
  induction sites with
  | nil => intro st; simp [visit_sites]
  | cons s0 rest ih =>
    intro st
    simp only [visit_sites, List.length_cons]
    have h1 := hvm s0.callee
      ⟨st.visited, st.edges ++ [Edge.mk (Node.meth caller) (Node.meth s0.callee) (some s0.invoke)]⟩
    have h2 := ih (vm s0.callee
      ⟨st.visited, st.edges ++ [Edge.mk (Node.meth caller) (Node.meth s0.callee) (some s0.invoke)]⟩)
    simp only [List.length_append, List.length_singleton] at h1
    omega

theorem visit_method_count (cs : DexMethod → List CallSite) :
    ∀ (fuel : Nat) (caller : DexMethod) (st : BuildState),
      (visit_method cs fuel caller st).edges.length +
        (st.visited.map (edge_weight cs)).sum =
      st.edges.length +
        ((visit_method cs fuel caller st).visited.map (edge_weight cs)).sum := by
  intro fuel
  induction fuel with
  | zero => intro caller st; simp [visit_method]
  | succ f ih =>
    intro caller st
    by_cases h : caller ∈ st.visited
    · simp [visit_method, h]
    · simp only [visit_method, if_neg h]
      by_cases hs : (cs caller).isEmpty = true
      · have hnil : cs caller = [] := List.isEmpty_iff.mp hs
        simp [hnil, visit_sites, edge_weight, List.length_append]
        omega
      · have hvst := visit_sites_count (visit_method cs f) (edge_weight cs) ih caller
          (cs caller)
          ⟨caller :: st.visited,
            if (cs caller).isEmpty then
              st.edges ++ [Edge.mk (Node.meth caller) Node.ghost_exit none]
            else st.edges⟩
        simp [hs, edge_weight] at hvst ⊢
        omega

theorem build_graph_fold_count (fuel : Nat) (cs : DexMethod → List CallSite) :
    ∀ (rs : List DexMethod) (st : BuildState),
      ((rs.foldl (fun st r => visit_method cs fuel r st) st)).edges.length +
        (st.visited.map (edge_weight cs)).sum =
      st.edges.length +
        (((rs.foldl (fun st r => visit_method cs fuel r st) st)).visited.map
          (edge_weight cs)).sum := by
  intro rs
  induction rs with
  | nil => intro st; simp
  | cons r rest ih =>
    intro st
    simp only [List.foldl_cons]
    have h1 := visit_method_count cs fuel r st
    have h2 := ih (visit_method cs fuel r st)
    omega

/-- C5 (amended): construction performs no duplicate-edge check and never
aborts: the number of edges in the built graph is exactly the number of
roots (one ghost-entry edge each) plus, for each visited method, the
number of callsites the strategy reports (or one ghost-exit edge when it
reports none) — so a strategy reporting the same (callee, locator) twice
for a caller yields two identical (caller, callee, locator) edges, see the
counterexample. -/
theorem build_graph_edge_count (fuel : Nat) (roots : List DexMethod)
    (cs : DexMethod → List CallSite) :
    (build_graph fuel roots cs).edges.length =
      roots.length + ((build_graph fuel roots cs).visited.map (edge_weight cs)).sum := by
  have h := build_graph_fold_count fuel cs roots
    ⟨[], roots.map (fun r => Edge.mk Node.ghost_entry (Node.meth r) none)⟩
  simp only [List.map_nil, List.sum_nil, List.length_map] at h
  simpa [build_graph] using h

/-- C5, counterexample: the strategy `dup_cs` reports the same
(callee, locator) pair twice; the built graph contains the resulting
(caller, callee, locator) edge twice, and construction returned normally
(no abort). -/
theorem build_graph_duplicate_edge :
    ((build_graph 3 [m_caller] dup_cs).edges.count
      (Edge.mk (Node.meth m_caller) (Node.meth m_leaf) (some 0))) = 2 := by decide

end call_graph

namespace dominators

/-- C2: on the directed graph {0→1, 1→2, 2→1, 1→3, 3→4, 4→3, 4→5, 2→5}
with entry 0, the dominator engine computes idom(0)=0, idom(1)=0,
idom(2)=1, idom(3)=1, idom(4)=3 and idom(5)=1, as the doubleLoop unit test
expects. -/
theorem double_loop_idoms :
    get_idom g_double_loop 0 0 = some 0 ∧
    get_idom g_double_loop 0 1 = some 0 ∧
    get_idom g_double_loop 0 2 = some 1 ∧
    get_idom g_double_loop 0 3 = some 1 ∧
    get_idom g_double_loop 0 4 = some 3 ∧
    get_idom g_double_loop 0 5 = some 1 := by decide

end dominators

namespace call_graph

/-- C9: every root reported by the single-callee strategy has a code body
(its roots are gathered by `walk::code`, which visits only methods with
code); the complete strategy gathers roots over all methods, and its root
list can contain a method without code (`m_nocode` in `s_nocode`). -/
theorem roots_code_presence :
    (∀ (s : Scope) (m : DexMethod), m ∈ single_callee_roots s → m.code.isSome = true) ∧
    (m_nocode ∈ complete_roots s_nocode ∧ m_nocode.code = none) := by
  constructor
  · intro s m hm
    have h := (List.mem_filter.mp hm).2
    exact (Bool.and_eq_true _ _ |>.mp h).1
  · exact ⟨by decide, rfl⟩

end call_graph

namespace inliner

theorem upd_same (st : RState) (m : IMethod) (f : RenderState → RenderState) :
    upd st m f m = f (st m) := by simp [upd]

theorem upd_other (st : RState) (m x : IMethod) (f : RenderState → RenderState)
    (h : x ≠ m) : upd st m f x = st x := by simp [upd, h]

theorem set_dont_all_force (ms : List IMethod) :
    ∀ (st : RState) (m : IMethod),
      ((set_dont_all st ms) m).force_inline = (st m).force_inline := by
  induction ms with
  | nil => intro st m; rfl
  | cons a rest ih =>
    intro st m
    have h1 := ih (upd st a (fun r => { r with dont_inline := true })) m
    have h2 : set_dont_all st (a :: rest) =
        set_dont_all (upd st a (fun r => { r with dont_inline := true })) rest := rfl
    rw [h2, h1]
    by_cases hm : m = a
    · subst hm; rw [upd_same]
    · rw [upd_other _ _ _ _ hm]

theorem class_step_force (p : InlinerConfig × RState) (cls : IClass) (m : IMethod) :
    ((class_step p cls).2 m).force_inline = (p.2 m).force_inline := by
  simp only [class_step]
  by_cases h : hasAnyAnno cls.annos p.1.m_no_inline_annos = true
  · simp [h, set_dont_all_force]
  · simp [h]

theorem class_fold_force (scope : List IClass) :
    ∀ (p : InlinerConfig × RState) (m : IMethod),
      ((scope.foldl class_step p).2 m).force_inline = (p.2 m).force_inline := by
  induction scope with
  | nil => intro p m; rfl
  | cons c rest ih =>
    intro p m
    simp only [List.foldl_cons]
    rw [ih (class_step p c) m, class_step_force]

theorem method_fold_no_force_on_dont (cfg : InlinerConfig) (m : IMethod) :
    ∀ (ms : List IMethod) (st : RState),
      ((st m).force_inline = true →
        hasAnyAnno m.annos cfg.m_no_inline_annos = false ∧ (st m).dont_inline = false) →
      (((ms.foldl (method_step cfg) st) m).force_inline = true →
        hasAnyAnno m.annos cfg.m_no_inline_annos = false ∧
        ((ms.foldl (method_step cfg) st) m).dont_inline = false) := by
  intro ms
  induction ms with
  | nil => intro st h; exact h
  | cons x rest ih =>
    intro st h
    simp only [List.foldl_cons]
    apply ih
    intro hf
    by_cases hd : (st x).dont_inline = true
    · simp only [method_step, if_pos hd] at hf ⊢
      exact h hf
    · by_cases hno : hasAnyAnno x.annos cfg.m_no_inline_annos = true
      · simp only [method_step, if_neg hd, if_pos hno] at hf ⊢
        by_cases hx : m = x
        · subst hx
          rw [upd_same] at hf
          have h2 := h hf
          rw [h2.1] at hno
          cases hno
        · rw [upd_other _ _ _ _ hx] at hf ⊢
          exact h hf
      · by_cases hfa : hasAnyAnno x.annos cfg.m_force_inline_annos = true
        · simp only [method_step, if_neg hd, if_neg hno, if_pos hfa] at hf ⊢
          by_cases hx : m = x
          · subst hx
            rw [upd_same]
            constructor
            · simpa using hno
            · simpa using hd
          · rw [upd_other _ _ _ _ hx] at hf ⊢
            exact h hf
        · simp only [method_step, if_neg hd, if_neg hno, if_neg hfa] at hf ⊢
          exact h hf

/-- C7: InlinerConfig::populate is idempotent: for any scope and any
starting configuration and renderer states, a second call is the identity —
the category sets and every method's do-not-inline / force-inline flags
are unchanged. -/
theorem populate_idempotent (scope : List IClass) (p : InlinerConfig × RState) :
    populate scope (populate scope p) = populate scope p := by
  have h2 : (populate scope p).1.m_populated = true := by
    by_cases h : p.1.m_populated
    · simp [populate, h]
    · simp [populate, h]
  generalize hq : populate scope p = q at h2 ⊢
  simp [populate, h2]

/-- C10: populate never sets both flags: for a method whose force-inline
flag starts clear, if populate left (or made) the do-not-inline flag set,
then the force-inline flag is still clear afterwards — a method already
marked do-not-inline (including by its class's no-inline annotation) is
skipped by the per-method walk and never receives force-inline. -/
theorem populate_no_force_on_dont (scope : List IClass) (p : InlinerConfig × RState)
    (m : IMethod) (hstart : (p.2 m).force_inline = false)
    (hdont : ((populate scope p).2 m).dont_inline = true) :
    ((populate scope p).2 m).force_inline = false := by
  by_cases h : p.1.m_populated
  · simp only [populate, if_pos h] at hdont ⊢
    exact hstart
  · simp only [populate, if_neg h] at hdont ⊢
    have hforce0 : ((scope.foldl class_step p).2 m).force_inline = false := by
      rw [class_fold_force]; exact hstart
    have hbase : ((scope.foldl class_step p).2 m).force_inline = true →
        hasAnyAnno m.annos (scope.foldl class_step p).1.m_no_inline_annos = false ∧
        ((scope.foldl class_step p).2 m).dont_inline = false := by
      intro hf; rw [hforce0] at hf; cases hf
    have hinv := method_fold_no_force_on_dont (scope.foldl class_step p).1 m
      (all_methods scope) (scope.foldl class_step p).2 hbase
    cases hfin : (((all_methods scope).foldl (method_step (scope.foldl class_step p).1)
        (scope.foldl class_step p).2) m).force_inline
    · rfl
    · exfalso
      have hcontra := (hinv hfin).2
      rw [hdont] at hcontra
      cases hcontra

/-- C10, witness: in the concrete scope whose class carries the no-inline
annotation, the force-annotated method ends with do-not-inline set and
force-inline clear. -/
theorem populate_no_force_on_dont_witness :
    ((populate [cls_noinline] (cfg0, st0)).2 m_force).force_inline = false :=
  populate_no_force_on_dont [cls_noinline] (cfg0, st0) m_force rfl (by decide)

end inliner

namespace apk

/-- C8 (amended): a missing or invalid directory is fatal — the process
exits with nonzero status — but a failure to create/open the asset file
itself is not an abort: new_asset_file throws a runtime error to the
caller instead. -/
theorem new_asset_file_failure_modes (fs : FileSys)
    (m_apk_dir filename dir_path : String) :
    (check_directory fs m_apk_dir = false →
      ∀ nd, new_asset_file fs m_apk_dir filename dir_path nd = AssetResult.exited 1) ∧
    (check_directory fs m_apk_dir = true →
      (create_directories_if_not_exists fs (m_apk_dir ++ dir_path)).fopen_ok
          ((m_apk_dir ++ dir_path) ++ filename) = false →
      new_asset_file fs m_apk_dir filename dir_path true =
        AssetResult.thrown "Error creating new asset file") ∧
    (check_directory fs m_apk_dir = true →
      check_directory fs (m_apk_dir ++ dir_path) = true →
      fs.fopen_ok ((m_apk_dir ++ dir_path) ++ filename) = false →
      new_asset_file fs m_apk_dir filename dir_path false =
        AssetResult.thrown "Error creating new asset file") := by
  refine ⟨?_, ?_, ?_⟩
  · intro h nd
    simp [new_asset_file, h]
  · intro h1 h2
    simp [new_asset_file, h1, h2]
  · intro h1 h2 h3
    simp [new_asset_file, h1, h2, h3]

/-- C8, counterexample to the original wording: on a filesystem where the
directories check out but fopen fails, new_asset_file throws the runtime
error to its caller and does not exit the process. -/
theorem new_asset_file_throws_not_exits :
    new_asset_file fs_nofopen "apk" "file" "/assets/" false =
      AssetResult.thrown "Error creating new asset file" ∧
    ∀ c, new_asset_file fs_nofopen "apk" "file" "/assets/" false ≠ AssetResult.exited c := by
  constructor
  · rfl
  · intro c h
    rw [show new_asset_file fs_nofopen "apk" "file" "/assets/" false =
      AssetResult.thrown "Error creating new asset file" from rfl] at h
    cases h

end apk
